import Mathlib

/-!
# IDA-LLVM graph plugin: the function graph model and its viewer callback

A shallow embedding of `src/plugin_main.cpp`: the class `IDALLVMFunction`
(block index map, lazily cached edge list, per-block text cache) and the
graph-viewer `callback` that serves the host's events from it.

Conventions of the embedding.

* A `llvm::BasicBlock*` is a `BlockRef` (a natural number standing for the
  address); two references are the same block exactly when they are equal.
* `int` values are integers; the implicit conversions between `size_t` and
  `int` that the source performs are the explicit functions `toInt`
  (reduction modulo `2^32`, read as two's complement) and `toSizeT`
  (reduction modulo `2^64`).
* A C++ exception or a fired `assert` is an `Except.error`.
-/

set_option linter.dupNamespace false

namespace IdaLLVM

/-! ## Machine integers -/

/-- Conversion of a `size_t` value to `int`: the low 32 bits, two's complement. -/
def toInt (n : Nat) : Int :=
  if n % 2 ^ 32 < 2 ^ 31 then ((n % 2 ^ 32 : Nat) : Int)
  else ((n % 2 ^ 32 : Nat) : Int) - 2 ^ 32

/-- Conversion of an `int` to `size_t`: reduction modulo `2^64`. -/
def toSizeT (i : Int) : Nat :=
  (i % 2 ^ 64).toNat

/-- The values an `int` can hold. -/
def IsInt (i : Int) : Prop :=
  -(2 ^ 31) ≤ i ∧ i < 2 ^ 31

instance instDecidableIsInt (i : Int) : Decidable (IsInt i) :=
  inferInstanceAs (Decidable (-(2 ^ 31) ≤ i ∧ i < 2 ^ 31))

/-! ## The lifted function, as the plugin observes it -/

/-- A reference to a basic block (`llvm::BasicBlock*`), compared by identity. -/
abbrev BlockRef := Nat

/-- The `llvm::Function` handed to the plugin, reduced to what the plugin reads
from it: the blocks in iteration order (`for (BasicBlock& bb : *function)`),
the successors of a block (`succ_begin` .. `succ_end`) and the text that
`ss << *bb` prints once the instruction namer pass has run. -/
structure Function where
  blocks : List BlockRef
  succs : BlockRef → List BlockRef
  print : BlockRef → String

/-! ## `std::map<llvm::BasicBlock*, int>` -/

/-- The entries of a `std::map<llvm::BasicBlock*, int>`. -/
abbrev BBMap := List (BlockRef × Int)

/-- Lookup, `std::map::find`: `none` stands for `end()`. -/
def mapFind : BBMap → BlockRef → Option Int
  | [], _ => none
  | (k, v) :: m, bb => if k = bb then some v else mapFind m bb

/-- Insertion, `std::map::insert`: an existing key keeps its value. -/
def mapInsert (m : BBMap) (bb : BlockRef) (v : Int) : BBMap :=
  match mapFind m bb with
  | some _ => m
  | none => m ++ [(bb, v)]

/-- Subscript, `std::map::operator[]`: a missing key is first inserted with the
value-initialised `int`, which is 0. Returns the value and the map afterwards. -/
def mapSubscript (m : BBMap) (bb : BlockRef) : Int × BBMap :=
  match mapFind m bb with
  | some v => (v, m)
  | none => (0, m ++ [(bb, 0)])

/-! ## `class IDALLVMFunction` -/

/-- The data members of `IDALLVMFunction`. -/
structure IDALLVMFunction where
  function : Function
  nodeText : List String
  bbToIndex : BBMap
  edges : List (Int × Int)
  basicBlocks : List BlockRef

/-- How a member function or the callback can fail to return. -/
inductive Failure where
  /-- `std::out_of_range`, thrown by `std::vector::at`. -/
  | outOfRange
  /-- A fired `assert`; it carries the object as it was when the process aborted. -/
  | assertion (self : IDALLVMFunction)

/-- Bounds-checked element access, `std::vector::at`, on a `size_t` position. -/
def vectorAt {α : Type} (v : List α) (pos : Nat) : Except Failure α :=
  match v.get? pos with
  | some a => .ok a
  | none => .error .outOfRange

/-- One round of the constructor's loop over the blocks of the function. -/
def ctorStep (self : IDALLVMFunction) (bb : BlockRef) : IDALLVMFunction :=
  { self with
    bbToIndex := mapInsert self.bbToIndex bb (toInt self.basicBlocks.length)
    basicBlocks := self.basicBlocks ++ [bb] }

/-- The constructor `IDALLVMFunction::IDALLVMFunction`. -/
def IDALLVMFunction.IDALLVMFunction (function : Function) : IdaLLVM.IDALLVMFunction :=
  function.blocks.foldl ctorStep
    { function := function, nodeText := [], bbToIndex := [], edges := [], basicBlocks := [] }

/-- Member `getFunction`. -/
def IDALLVMFunction.getFunction (self : IdaLLVM.IDALLVMFunction) : Function :=
  self.function

/-- One round of the loop of `generateBasicBlockText`: the stream appends the
print of block `idx` to `nodeText[idx]`. Both subscripts are unchecked in the
source; the loop only reaches positions below the size of `basicBlocks`. -/
def textStep (self : IDALLVMFunction) (idx : Nat) : IDALLVMFunction :=
  { self with
    nodeText := self.nodeText.set idx
      (self.nodeText.getD idx "" ++ self.function.print (self.basicBlocks.getD idx 0)) }

/-- Member `generateBasicBlockText`: `clear`, `resize`, then one round per block. -/
def IDALLVMFunction.generateBasicBlockText (self : IdaLLVM.IDALLVMFunction) :
    IdaLLVM.IDALLVMFunction :=
  (List.range self.basicBlocks.length).foldl textStep
    { self with nodeText := List.replicate self.basicBlocks.length "" }

/-- Member `getBasicBlockText`: `nodeText.at(idx)`, with `idx` converted to `size_t`. -/
def IDALLVMFunction.getBasicBlockText (self : IdaLLVM.IDALLVMFunction) (idx : Int) :
    Except Failure String :=
  vectorAt self.nodeText (toSizeT idx)

/-- Member `getBasicBlockIndex`. -/
def IDALLVMFunction.getBasicBlockIndex (self : IdaLLVM.IDALLVMFunction) (bb : BlockRef) : Int :=
  match mapFind self.bbToIndex bb with
  | some v => v
  | none => -1

/-- Member `getNumBasicBlocks`: the size of `basicBlocks`, converted to `int`. -/
def IDALLVMFunction.getNumBasicBlocks (self : IdaLLVM.IDALLVMFunction) : Int :=
  toInt self.basicBlocks.length

/-- The body of the successor loop of `getEdges` for one successor: the `assert`
(assertions are compiled in), then
`edges.push_back(std::make_pair(bbIdx, bbToIndex[*sitr]))`. -/
def edgeStep (bbIdx : Nat) (self : IDALLVMFunction) (succ : BlockRef) :
    Except Failure IDALLVMFunction :=
  match mapFind self.bbToIndex succ with
  | none => .error (.assertion self)
  | some _ =>
    .ok { self with
          bbToIndex := (mapSubscript self.bbToIndex succ).2
          edges := self.edges ++ [((bbIdx : Int), (mapSubscript self.bbToIndex succ).1)] }

/-- The body of the block loop of `getEdges` for the block at position `bbIdx`.
The loop counter is an `int` that starts at 0 and is compared with the size of
`basicBlocks`; it is followed here as the position it counts. -/
def blockStep (self : IDALLVMFunction) (bbIdx : Nat) : Except Failure IDALLVMFunction := do
  let bb ← vectorAt self.basicBlocks bbIdx
  (self.function.succs bb).foldlM (edgeStep bbIdx) self

/-- Member `getEdges`. The object after the call is returned; the reference the
source returns is its `edges` member. -/
def IDALLVMFunction.getEdges (self : IdaLLVM.IDALLVMFunction) :
    Except Failure IdaLLVM.IDALLVMFunction :=
  if self.edges.length = 0 then
    (List.range self.basicBlocks.length).foldlM blockStep self
  else
    .ok self

/-- The edge list a call returned, if it returned. -/
def returnedEdges (r : Except Failure IDALLVMFunction) : Option (List (Int × Int)) :=
  match r with
  | .ok self => some self.edges
  | .error _ => none

/-! ## The host's graph and the viewer callback -/

/-- Modelled from the spec: the host's `mutable_graph_t` (declared in the host
SDK header `graph.hpp`, which is not part of the sources) is a node count plus
the list of added edges. -/
structure MutableGraph where
  nodes : Int
  edges : List (Int × Int)
  deriving DecidableEq, Repr

/-- Modelled from the spec: `g->empty()`, the graph has no node. -/
def MutableGraph.empty (g : MutableGraph) : Bool :=
  decide (g.nodes = 0)

/-- Modelled from the spec: `g->resize(n)` sets the node count. -/
def MutableGraph.resize (g : MutableGraph) (n : Int) : MutableGraph :=
  { g with nodes := n }

/-- Modelled from the spec: `g->add_edge(i, j, NULL)` appends the edge. -/
def MutableGraph.add_edge (g : MutableGraph) (i j : Int) : MutableGraph :=
  { g with edges := g.edges ++ [(i, j)] }

/-- The number of edges of the host graph. -/
def MutableGraph.edgeCount (g : MutableGraph) : Nat :=
  g.edges.length

/-- A pointer of the host that the callback only prints, kept as the text that
the conversion `%p` gives for it. -/
abbrev Ptr := String

/-- The `graph_item_t` of a click: its `type` tag with the fields read for it. -/
inductive GraphItem where
  | git_none
  | git_edge (src dst : Int)
  | git_node (n : Int)
  | git_tool (b : Int)
  | git_text (x y : Int)
  | git_elp (src dst pidx : Int)
  | unlisted
  deriving DecidableEq, Repr

/-- The `selection_item_t` of a double click. -/
structure SelectionItem where
  is_node : Bool
  node : Int
  src : Int
  dst : Int
  pidx : Int
  deriving DecidableEq, Repr

/-- The event `code` of the callback together with the arguments the callback
takes from the `va_list` for it. -/
inductive Event where
  | grcode_calculating_layout
  | grcode_changed_current (v : Ptr) (curnode : Int)
  | grcode_clicked (m : GraphItem)
  | grcode_dblclicked (v : Ptr) (s : Option SelectionItem)
  | grcode_creating_group (g : Ptr) (nodes : List Int)
  | grcode_deleting_group (g : Ptr) (group : Int)
  | grcode_group_visibility (g : Ptr) (group : Int) (expand : Bool)
  | grcode_gotfocus (g : Ptr)
  | grcode_lostfocus (g : Ptr)
  | grcode_user_refresh (gp : Ptr) (g : MutableGraph)
  | grcode_user_gentext (g : Ptr)
  | grcode_user_text (node : Int) (bgcolorGiven : Bool)
  | grcode_user_size
  | grcode_user_title
  | grcode_user_draw
  | grcode_user_hint (mousenode mouseedge_src mouseedge_dst : Int)
  | unlisted (code : Int)

/-- What a call of the callback leaves behind when it returns. -/
structure Outcome where
  /-- The object behind `userdata` after the call. -/
  data : IDALLVMFunction
  /-- The returned `result`. -/
  result : Int
  /-- The texts passed to `msg`, one entry per call, with the arguments filled in. -/
  log : List String
  /-- The host graph `*g` after a refresh. -/
  graph : Option MutableGraph
  /-- The text stored through `text`. -/
  text : Option String
  /-- Whether `*bgcolor = DEFCOLOR` was executed. -/
  bgcolorSet : Bool
  /-- The string stored through `hint`. -/
  hint : Option String

/-- The text printed after "clicked on " for a click. -/
def clickedText : GraphItem → List String
  | .git_none => ["background\n"]
  | .git_edge src dst => ["edge (" ++ toString src ++ ", " ++ toString dst ++ ")\n"]
  | .git_node n => ["node " ++ toString n ++ "\n"]
  | .git_tool b => ["toolbutton " ++ toString b ++ "\n"]
  | .git_text x y => ["text (x,y)=(" ++ toString x ++ "," ++ toString y ++ ")\n"]
  | .git_elp src dst pidx =>
    ["edge layout point (" ++ toString src ++ ", " ++ toString dst ++ ") #"
      ++ toString pidx ++ "\n"]
  | .unlisted => []

/-- The text printed for the selection of a double click. -/
def dblclickedText : Option SelectionItem → String
  | none => "background\n"
  | some s =>
    if s.is_node then "node " ++ toString s.node ++ "\n"
    else "edge (" ++ toString s.src ++ ", " ++ toString s.dst ++ ") layout point #"
      ++ toString s.pidx ++ "\n"

/-- The buffer `buf` of the hint event after the two `qsnprintf` branches; the
texts for `int` arguments are far shorter than `MAXSTR`, so nothing is cut. -/
def hintBuf (mousenode mouseedge_src mouseedge_dst : Int) : String :=
  if mousenode ≠ -1 then "My fancy hint for node " ++ toString mousenode
  else if mouseedge_src ≠ -1 then
    "Hovering on (" ++ toString mouseedge_src ++ "," ++ toString mouseedge_dst ++ ")"
  else ""

/-- The loop of the refresh event over the edges: one `add_edge` per pair. -/
def addEdges (g : MutableGraph) (edges : List (Int × Int)) : MutableGraph :=
  edges.foldl (fun g edge => g.add_edge edge.1 edge.2) g

/-- The function `callback`, with `data` the object behind `userdata`. -/
def callback (data : IDALLVMFunction) (ev : Event) : Except Failure Outcome :=
  let out : Outcome :=
    { data := data, result := 0, log := [], graph := none, text := none,
      bgcolorSet := false, hint := none }
  match ev with
  | .grcode_calculating_layout =>
    .ok { out with log := ["calculating graph layout...\n"] }
  | .grcode_changed_current v curnode =>
    .ok { out with log := [v ++ ": current node becomes " ++ toString curnode ++ "\n"] }
  | .grcode_clicked m =>
    .ok { out with log := "clicked on " :: clickedText m }
  | .grcode_dblclicked v s =>
    .ok { out with log := [v ++ ": dblclicked on ", dblclickedText s] }
  | .grcode_creating_group g nodes =>
    .ok { out with
          log := [g ++ ": creating group"] ++ nodes.map (fun p => " " ++ toString p)
            ++ ["...\n"] }
  | .grcode_deleting_group g group =>
    .ok { out with log := [g ++ ": deleting group " ++ toString group ++ "\n"] }
  | .grcode_group_visibility g group expand =>
    .ok { out with
          log := [g ++ ": " ++ (if expand then "un" else "") ++ "collapsing group "
            ++ toString group ++ "\n"] }
  | .grcode_gotfocus g =>
    .ok { out with log := [g ++ ": got focus\n"] }
  | .grcode_lostfocus g =>
    .ok { out with log := [g ++ ": lost focus\n"] }
  | .grcode_user_refresh gp g =>
    let g1 := if g.empty then g.resize data.getNumBasicBlocks else g
    match data.getEdges with
    | .error e => .error e
    | .ok data1 =>
      .ok { out with
            data := data1, log := [gp ++ ": refresh\n"]
            graph := some (addEdges g1 data1.edges), result := 1 }
  | .grcode_user_gentext g =>
    .ok { out with
          data := data.generateBasicBlockText
          log := [g ++ ": generate text for graph nodes\n"], result := 1 }
  | .grcode_user_text node bgcolorGiven =>
    match data.getBasicBlockText node with
    | .error e => .error e
    | .ok t => .ok { out with text := some t, bgcolorSet := bgcolorGiven, result := 1 }
  | .grcode_user_size =>
    .ok { out with log := ["calc node size - not implemented\n"] }
  | .grcode_user_title => .ok out
  | .grcode_user_draw => .ok out
  | .grcode_user_hint mousenode mouseedge_src mouseedge_dst =>
    let buf := hintBuf mousenode mouseedge_src mouseedge_dst
    .ok { out with hint := if buf ≠ "" then some buf else none, result := 1 }
  | .unlisted _ => .ok out

/-! ## Auxiliary definitions of the proofs -/

/-- The three-block function `A -> B -> C` in which `A` also branches to `C`;
the blocks `A`, `B`, `C` are the references 10, 20, 30. -/
def diamond : Function where
  blocks := [10, 20, 30]
  succs := fun b => if b = 10 then [20, 30] else if b = 20 then [30] else []
  print := fun b => "bb" ++ toString b

/-- The two-block loop `A -> B -> A`; the blocks are the references 1 and 2. -/
def twoLoop : Function where
  blocks := [1, 2]
  succs := fun b => if b = 1 then [2] else if b = 2 then [1] else []
  print := fun b => "block " ++ toString b

/-- Two blocks without any successor; the blocks are the references 5 and 6. -/
def isolated : Function where
  blocks := [5, 6]
  succs := fun _ => []
  print := fun b => "ret " ++ toString b

/-- Two blocks of which the first branches to the second, to itself and to the
reference 99, which is no block of the function. -/
def dangling : Function where
  blocks := [10, 20]
  succs := fun b => if b = 10 then [20, 10, 99] else []
  print := fun _ => "x"

/-- The entries the constructor makes for the blocks `bs`, the first of them
receiving position `n`. -/
def indexEntries : Nat → List BlockRef → BBMap
  | _, [] => []
  | n, b :: bs => (b, toInt n) :: indexEntries (n + 1) bs

/-- The edges `getEdges` computes for an object whose map knows every successor. -/
def computedEdges (self : IDALLVMFunction) : List (Int × Int) :=
  self.basicBlocks.enum.flatMap (fun p =>
    (self.function.succs p.2).map (fun s => ((p.1 : Int), self.getBasicBlockIndex s)))

/-- The host graph after a call of the callback, if the call returned. -/
def graphAfter (r : Except Failure Outcome) : Option MutableGraph :=
  match r with
  | .ok o => o.graph
  | .error _ => none

/-- The result code of a call of the callback, if the call returned. -/
def resultAfter (r : Except Failure Outcome) : Option Int :=
  match r with
  | .ok o => some o.result
  | .error _ => none

/-- Whether a call ended with `std::out_of_range` instead of returning. -/
def raisedOutOfRange {α : Type} (r : Except Failure α) : Bool :=
  match r with
  | .error .outOfRange => true
  | _ => false

/-- Two refresh events in a row on one session: the second one acts on the
object and on the host graph that the first one left behind. -/
def refreshTwice (data : IDALLVMFunction) (gp : Ptr) (g : MutableGraph) :
    Except Failure Outcome :=
  match callback data (.grcode_user_refresh gp g) with
  | .error e => .error e
  | .ok o => callback o.data (.grcode_user_refresh gp (o.graph.getD g))

/-- The events that only notify the plugin: the layout request, the node size,
title and draw requests, the change of the current node, click and double
click, the three group events, focus gained and lost, and every code that the
`switch` of the callback does not list. The remaining four events (refresh,
generate text, node text, hint) are the ones the plugin serves. -/
def Event.observational : Event → Bool
  | .grcode_calculating_layout => true
  | .grcode_changed_current _ _ => true
  | .grcode_clicked _ => true
  | .grcode_dblclicked _ _ => true
  | .grcode_creating_group _ _ => true
  | .grcode_deleting_group _ _ => true
  | .grcode_group_visibility _ _ _ => true
  | .grcode_gotfocus _ => true
  | .grcode_lostfocus _ => true
  | .grcode_user_size => true
  | .grcode_user_title => true
  | .grcode_user_draw => true
  | .unlisted _ => true
  | .grcode_user_refresh _ _ => false
  | .grcode_user_gentext _ => false
  | .grcode_user_text _ _ => false
  | .grcode_user_hint _ _ _ => false

/-! ## Facts about the map and the machine integers -/

theorem toInt_of_lt {n : Nat} (h : n < 2 ^ 31) : toInt n = (n : Int) := by
  have h1 : n % 2 ^ 32 = n := Nat.mod_eq_of_lt (by omega)
  unfold toInt
  rw [h1, if_pos h]

theorem toSizeT_of_nonneg {i : Int} (h0 : 0 ≤ i) (h1 : i < 2 ^ 64) : toSizeT i = i.toNat := by
  unfold toSizeT
  rw [Int.emod_eq_of_lt h0 h1]

theorem toSizeT_of_neg {i : Int} (h0 : i < 0) (h1 : -(2 ^ 31) ≤ i) :
    2 ^ 64 - 2 ^ 31 ≤ toSizeT i := by
  unfold toSizeT
  have h2 : i % 2 ^ 64 = i + 2 ^ 64 := by
    rw [← Int.add_emod_self]
    exact Int.emod_eq_of_lt (by omega) (by omega)
  rw [h2]
  omega

theorem mapFind_append (m1 m2 : BBMap) (b : BlockRef) :
    mapFind (m1 ++ m2) b = (mapFind m1 b).orElse (fun _ => mapFind m2 b) := by
  induction m1 with
  | nil => simp [mapFind]
  | cons e m ih =>
    obtain ⟨k, v⟩ := e
    by_cases hk : k = b
    · simp [mapFind, hk]
    · simp [mapFind, hk, ih]

theorem mapFind_eq_none_iff (m : BBMap) (b : BlockRef) :
    mapFind m b = none ↔ b ∉ m.map Prod.fst := by
  induction m with
  | nil => simp [mapFind]
  | cons e m ih =>
    obtain ⟨k, v⟩ := e
    by_cases hk : k = b
    · simp [mapFind, hk]
    · have hk2 : ¬ b = k := fun h => hk h.symm
      simp [mapFind, hk, hk2, ih]

theorem indexEntries_keys (n : Nat) (bs : List BlockRef) :
    (indexEntries n bs).map Prod.fst = bs := by
  induction bs generalizing n with
  | nil => rfl
  | cons b bs ih => simp [indexEntries, ih]

theorem mapFind_indexEntries (bs : List BlockRef) (n i : Nat) (hd : bs.Nodup)
    (h : i < bs.length) : mapFind (indexEntries n bs) (bs.get ⟨i, h⟩) = some (toInt (n + i)) := by
  induction bs generalizing n i with
  | nil => simp at h
  | cons b bs ih =>
    cases i with
    | zero => simp [indexEntries, mapFind]
    | succ j =>
      have hj : j < bs.length := by simpa using h
      have hmem : bs.get ⟨j, hj⟩ ∈ bs := List.get_mem bs j hj
      have hne : ¬ b = bs.get ⟨j, hj⟩ := by
        intro hb
        exact (List.nodup_cons.mp hd).1 (hb ▸ hmem)
      have := ih (n + 1) j (List.nodup_cons.mp hd).2 hj
      simp only [indexEntries, mapFind, List.get_cons_succ, if_neg hne, this]
      congr 2
      omega

/-- What the constructor's loop does to an object, block by block. -/
theorem ctor_fold (bs : List BlockRef) (self : IDALLVMFunction)
    (hfresh : ∀ b ∈ bs, mapFind self.bbToIndex b = none) (hd : bs.Nodup) :
    (bs.foldl ctorStep self).bbToIndex
        = self.bbToIndex ++ indexEntries self.basicBlocks.length bs
      ∧ (bs.foldl ctorStep self).basicBlocks = self.basicBlocks ++ bs
      ∧ (bs.foldl ctorStep self).edges = self.edges
      ∧ (bs.foldl ctorStep self).nodeText = self.nodeText
      ∧ (bs.foldl ctorStep self).function = self.function := by
  induction bs generalizing self with
  | nil => simp [indexEntries]
  | cons b bs ih =>
    have hb : mapFind self.bbToIndex b = none := hfresh b (List.mem_cons_self b bs)
    have hstep : (ctorStep self b).bbToIndex
        = self.bbToIndex ++ [(b, toInt self.basicBlocks.length)] := by
      simp [ctorStep, mapInsert, hb]
    have hfresh2 : ∀ c ∈ bs, mapFind (ctorStep self b).bbToIndex c = none := by
      intro c hc
      have hcb : ¬ b = c := fun h => (List.nodup_cons.mp hd).1 (h ▸ hc)
      rw [hstep, mapFind_append, hfresh c (List.mem_cons_of_mem b hc)]
      simp [mapFind, hcb]
    obtain ⟨h1, h2, h3, h4, h5⟩ := ih (ctorStep self b) hfresh2 (List.nodup_cons.mp hd).2
    rw [List.foldl_cons]
    refine ⟨?_, ?_, ?_, ?_, ?_⟩
    · rw [h1, hstep]
      simp [ctorStep, indexEntries]
    · rw [h2]
      simp [ctorStep]
    · rw [h3]; rfl
    · rw [h4]; rfl
    · rw [h5]; rfl

/-- The object the constructor builds for a function with distinct blocks. -/
theorem ctor_spec (f : Function) (hd : f.blocks.Nodup) :
    (IDALLVMFunction.IDALLVMFunction f).bbToIndex = indexEntries 0 f.blocks
      ∧ (IDALLVMFunction.IDALLVMFunction f).basicBlocks = f.blocks
      ∧ (IDALLVMFunction.IDALLVMFunction f).edges = []
      ∧ (IDALLVMFunction.IDALLVMFunction f).nodeText = []
      ∧ (IDALLVMFunction.IDALLVMFunction f).function = f := by
  have h := ctor_fold f.blocks
    { function := f, nodeText := [], bbToIndex := [], edges := [], basicBlocks := [] }
    (by intro b _; rfl) hd
  simpa [IDALLVMFunction.IDALLVMFunction] using h

theorem mapFind_mapInsert_ne_none (m : BBMap) (k : BlockRef) (v : Int) (b : BlockRef) :
    mapFind (mapInsert m k v) b ≠ none ↔ mapFind m b ≠ none ∨ b = k := by
  unfold mapInsert
  cases hk : mapFind m k with
  | some w =>
    constructor
    · intro h
      exact Or.inl h
    · rintro (h | rfl)
      · exact h
      · simp [hk]
  | none =>
    simp only [mapFind_append]
    by_cases hb : k = b
    · subst hb
      simp [hk, mapFind]
    · have hb2 : ¬ b = k := fun h => hb h.symm
      cases hm : mapFind m b <;> simp [mapFind, hb, hb2]

/-- What the constructor's loop does for any list of blocks, repeated or not. -/
theorem ctor_fold_frame (bs : List BlockRef) (self : IDALLVMFunction) :
    (bs.foldl ctorStep self).basicBlocks = self.basicBlocks ++ bs
      ∧ (bs.foldl ctorStep self).edges = self.edges
      ∧ (bs.foldl ctorStep self).nodeText = self.nodeText
      ∧ (bs.foldl ctorStep self).function = self.function
      ∧ ∀ b : BlockRef, mapFind (bs.foldl ctorStep self).bbToIndex b ≠ none
          ↔ mapFind self.bbToIndex b ≠ none ∨ b ∈ bs := by
  induction bs generalizing self with
  | nil => simp
  | cons c bs ih =>
    obtain ⟨h1, h2, h3, h4, h5⟩ := ih (ctorStep self c)
    rw [List.foldl_cons]
    refine ⟨?_, ?_, ?_, ?_, ?_⟩
    · rw [h1]
      simp [ctorStep]
    · rw [h2]; rfl
    · rw [h3]; rfl
    · rw [h4]; rfl
    · intro b
      rw [h5 b]
      have hstep : (ctorStep self c).bbToIndex
          = mapInsert self.bbToIndex c (toInt self.basicBlocks.length) := rfl
      rw [hstep, mapFind_mapInsert_ne_none, List.mem_cons, or_assoc]

/-- The object the constructor builds, for any function. -/
theorem ctor_frame (f : Function) :
    (IDALLVMFunction.IDALLVMFunction f).basicBlocks = f.blocks
      ∧ (IDALLVMFunction.IDALLVMFunction f).edges = []
      ∧ (IDALLVMFunction.IDALLVMFunction f).nodeText = []
      ∧ (IDALLVMFunction.IDALLVMFunction f).function = f
      ∧ ∀ b : BlockRef, mapFind (IDALLVMFunction.IDALLVMFunction f).bbToIndex b ≠ none
          ↔ b ∈ f.blocks := by
  have h := ctor_fold_frame f.blocks
    { function := f, nodeText := [], bbToIndex := [], edges := [], basicBlocks := [] }
  simpa [IDALLVMFunction.IDALLVMFunction, mapFind] using h

theorem edgeStep_found (i : Nat) (self : IDALLVMFunction) (s : BlockRef) (v : Int)
    (h : mapFind self.bbToIndex s = some v) :
    edgeStep i self s = .ok { self with edges := self.edges ++ [((i : Int), v)] } := by
  simp [edgeStep, mapSubscript, h]

theorem succLoop_ok (i : Nat) (ss : List BlockRef) (self : IDALLVMFunction)
    (h : ∀ s ∈ ss, mapFind self.bbToIndex s ≠ none) :
    ss.foldlM (edgeStep i) self
      = .ok { self with
              edges := self.edges ++ ss.map (fun s => ((i : Int), self.getBasicBlockIndex s)) } := by
  induction ss generalizing self with
  | nil => simp [pure, Except.pure]
  | cons s ss ih =>
    obtain ⟨v, hv⟩ := Option.ne_none_iff_exists'.mp (h s (List.mem_cons_self s ss))
    rw [List.foldlM_cons, edgeStep_found i self s v hv]
    simp only [bind, Except.bind]
    rw [ih]
    · simp [IDALLVMFunction.getBasicBlockIndex, hv]
    · intro t ht
      exact h t (List.mem_cons_of_mem s ht)

theorem vectorAt_append_length {α : Type} (pre : List α) (b : α) (bs : List α) :
    vectorAt (pre ++ b :: bs) pre.length = .ok b := by
  induction pre with
  | nil => rfl
  | cons a pre ih => simpa [vectorAt] using ih

theorem blockLoop_ok (bs pre : List BlockRef) (self : IDALLVMFunction)
    (hbbs : self.basicBlocks = pre ++ bs)
    (h : ∀ b ∈ bs, ∀ s ∈ self.function.succs b, mapFind self.bbToIndex s ≠ none) :
    (List.range' pre.length bs.length).foldlM blockStep self
      = .ok { self with
              edges := self.edges ++ (bs.enumFrom pre.length).flatMap (fun p =>
                (self.function.succs p.2).map
                  (fun s => ((p.1 : Int), self.getBasicBlockIndex s))) } := by
  induction bs generalizing pre self with
  | nil => simp [pure, Except.pure]
  | cons b bs ih =>
    have hstep : blockStep self pre.length
        = .ok { self with
                edges := self.edges ++ (self.function.succs b).map
                  (fun s => ((pre.length : Int), self.getBasicBlockIndex s)) } := by
      have hat : vectorAt self.basicBlocks pre.length = .ok b := by
        rw [hbbs]
        exact vectorAt_append_length pre b bs
      unfold blockStep
      rw [hat]
      simp only [bind, Except.bind]
      exact succLoop_ok pre.length (self.function.succs b) self
        (h b (List.mem_cons_self b bs))
    rw [List.length_cons, List.range'_succ, List.foldlM_cons, hstep]
    simp only [bind, Except.bind]
    have hlen : pre.length + 1 = (pre ++ [b]).length := by simp
    rw [hlen, ih (pre ++ [b])]
    · simp [IDALLVMFunction.getBasicBlockIndex, List.enumFrom_cons]
    · simp [hbbs]
    · intro c hc s hs
      exact h c (List.mem_cons_of_mem b hc) s hs

theorem edgeStep_missing (i : Nat) (self : IDALLVMFunction) (s : BlockRef)
    (h : mapFind self.bbToIndex s = none) :
    edgeStep i self s = .error (.assertion self) := by
  simp [edgeStep, h]

/-- The successor loop stops at the first successor that the map does not know;
the map is then as it was before the loop. -/
theorem succLoop_fail (i : Nat) (ss : List BlockRef) (self : IDALLVMFunction)
    (h : ∃ s ∈ ss, mapFind self.bbToIndex s = none) :
    ∃ st : IDALLVMFunction, ss.foldlM (edgeStep i) self = .error (.assertion st)
      ∧ st.bbToIndex = self.bbToIndex := by
  induction ss generalizing self with
  | nil =>
    obtain ⟨s, hs, -⟩ := h
    simp at hs
  | cons t ss ih =>
    cases ht : mapFind self.bbToIndex t with
    | none =>
      refine ⟨self, ?_, rfl⟩
      rw [List.foldlM_cons, edgeStep_missing i self t ht]
      rfl
    | some v =>
      obtain ⟨s, hs, hnone⟩ := h
      have hs2 : s ∈ ss := by
        rcases List.mem_cons.mp hs with rfl | hs2
        · rw [ht] at hnone
          exact absurd hnone (by simp)
        · exact hs2
      rw [List.foldlM_cons, edgeStep_found i self t v ht]
      simp only [bind, Except.bind]
      exact ih _ ⟨s, hs2, hnone⟩

/-- The block loop stops in the first block that has a successor the map does
not know; the map is then as it was before the loop. -/
theorem blockLoop_fail (bs pre : List BlockRef) (self : IDALLVMFunction)
    (hbbs : self.basicBlocks = pre ++ bs)
    (h : ∃ b ∈ bs, ∃ s ∈ self.function.succs b, mapFind self.bbToIndex s = none) :
    ∃ st : IDALLVMFunction,
      (List.range' pre.length bs.length).foldlM blockStep self = .error (.assertion st)
        ∧ st.bbToIndex = self.bbToIndex := by
  induction bs generalizing pre self with
  | nil =>
    obtain ⟨b, hb, -⟩ := h
    simp at hb
  | cons c bs ih =>
    have hat : vectorAt self.basicBlocks pre.length = .ok c := by
      rw [hbbs]
      exact vectorAt_append_length pre c bs
    rw [List.length_cons, List.range'_succ, List.foldlM_cons]
    by_cases hc : ∃ s ∈ self.function.succs c, mapFind self.bbToIndex s = none
    · obtain ⟨st, hst, hmap⟩ := succLoop_fail pre.length (self.function.succs c) self hc
      refine ⟨st, ?_, hmap⟩
      unfold blockStep
      rw [hat]
      simp only [bind, Except.bind]
      rw [hst]
    · have hknown : ∀ s ∈ self.function.succs c, mapFind self.bbToIndex s ≠ none := by
        intro s hs hnone
        exact hc ⟨s, hs, hnone⟩
      have hstep : blockStep self pre.length
          = .ok { self with
                  edges := self.edges ++ (self.function.succs c).map
                    (fun s => ((pre.length : Int), self.getBasicBlockIndex s)) } := by
        unfold blockStep
        rw [hat]
        simp only [bind, Except.bind]
        exact succLoop_ok pre.length (self.function.succs c) self hknown
      obtain ⟨b, hb, s, hs, hnone⟩ := h
      have hb2 : b ∈ bs := by
        rcases List.mem_cons.mp hb with rfl | hb2
        · exact absurd ⟨s, hs, hnone⟩ hc
        · exact hb2
      rw [hstep]
      simp only [bind, Except.bind]
      have hlen : pre.length + 1 = (pre ++ [c]).length := by simp
      rw [hlen]
      exact ih (pre ++ [c]) _ (by simp [hbbs]) ⟨b, hb2, s, hs, hnone⟩

/-- A call of `getEdges` on an empty cache, when the map knows every successor. -/
theorem getEdges_empty_ok (self : IDALLVMFunction) (he : self.edges = [])
    (h : ∀ b ∈ self.basicBlocks, ∀ s ∈ self.function.succs b,
      mapFind self.bbToIndex s ≠ none) :
    self.getEdges = .ok { self with edges := computedEdges self } := by
  have hloop := blockLoop_ok self.basicBlocks [] self (by simp) h
  unfold IDALLVMFunction.getEdges
  rw [if_pos (by simp [he]), List.range_eq_range']
  simpa [he, List.enum, computedEdges] using hloop

/-- A call of `getEdges` on an empty cache, when the map misses a successor. -/
theorem getEdges_empty_fail (self : IDALLVMFunction) (he : self.edges = [])
    (h : ∃ b ∈ self.basicBlocks, ∃ s ∈ self.function.succs b,
      mapFind self.bbToIndex s = none) :
    ∃ st : IDALLVMFunction, self.getEdges = .error (.assertion st)
      ∧ st.bbToIndex = self.bbToIndex := by
  obtain ⟨st, hst, hmap⟩ := blockLoop_fail self.basicBlocks [] self (by simp) h
  refine ⟨st, ?_, hmap⟩
  unfold IDALLVMFunction.getEdges
  rw [if_pos (by simp [he]), List.range_eq_range']
  simpa using hst

/-- A call of `getEdges` that returns changes at most the edge list, and a
second call returns the same object. -/
theorem getEdges_returns (self self1 : IDALLVMFunction) (h : self.getEdges = .ok self1) :
    self1.function = self.function ∧ self1.nodeText = self.nodeText
      ∧ self1.bbToIndex = self.bbToIndex ∧ self1.basicBlocks = self.basicBlocks
      ∧ self1.getEdges = .ok self1 := by
  by_cases he : self.edges = []
  · by_cases hk : ∃ b ∈ self.basicBlocks, ∃ s ∈ self.function.succs b,
        mapFind self.bbToIndex s = none
    · obtain ⟨st, hst, -⟩ := getEdges_empty_fail self he hk
      rw [hst] at h
      cases h
    · have hknown : ∀ b ∈ self.basicBlocks, ∀ s ∈ self.function.succs b,
          mapFind self.bbToIndex s ≠ none := by
        intro b hb s hs hnone
        exact hk ⟨b, hb, s, hs, hnone⟩
      have hok := getEdges_empty_ok self he hknown
      rw [hok] at h
      injection h with h
      subst h
      refine ⟨rfl, rfl, rfl, rfl, ?_⟩
      by_cases hc : computedEdges self = []
      · have hsame : ({ self with edges := computedEdges self } : IDALLVMFunction) = self := by
          rw [hc, ← he]
        rw [hsame]
        rw [hok, hc, ← he]
      · unfold IDALLVMFunction.getEdges
        rw [if_neg (by simpa using hc)]
  · have hret : self.getEdges = .ok self := by
      unfold IDALLVMFunction.getEdges
      rw [if_neg (by simpa using he)]
    rw [hret] at h
    injection h with h
    subst h
    exact ⟨rfl, rfl, rfl, rfl, hret⟩

theorem addEdges_eq (g : MutableGraph) (es : List (Int × Int)) :
    addEdges g es = { g with edges := g.edges ++ es } := by
  induction es generalizing g with
  | nil => simp [addEdges]
  | cons e es ih =>
    have h := ih (g.add_edge e.1 e.2)
    simp only [addEdges, List.foldl_cons] at h ⊢
    rw [h]
    simp [MutableGraph.add_edge]

/-- The refresh event, when `getEdges` returns. -/
theorem callback_refresh_ok (data data1 : IDALLVMFunction) (gp : Ptr) (g : MutableGraph)
    (h : data.getEdges = .ok data1) :
    callback data (.grcode_user_refresh gp g)
      = .ok { data := data1, result := 1, log := [gp ++ ": refresh\n"]
              graph := some (addEdges (if g.empty then g.resize data.getNumBasicBlocks else g)
                data1.edges)
              text := none, bgcolorSet := false, hint := none } := by
  simp [callback, h]

theorem getNumBasicBlocks_congr (a b : IDALLVMFunction) (h : a.basicBlocks = b.basicBlocks) :
    a.getNumBasicBlocks = b.getNumBasicBlocks := by
  simp [IDALLVMFunction.getNumBasicBlocks, h]

/-- Two refresh events on a graph that starts empty, when `getEdges` returns. -/
theorem refreshTwice_ok (data data1 : IDALLVMFunction) (gp : Ptr)
    (h : data.getEdges = .ok data1) :
    graphAfter (refreshTwice data gp { nodes := 0, edges := [] })
      = some { nodes := data.getNumBasicBlocks, edges := data1.edges ++ data1.edges } := by
  obtain ⟨-, -, -, hbbs, h2⟩ := getEdges_returns data data1 h
  have hnum := getNumBasicBlocks_congr data1 data hbbs
  unfold refreshTwice
  rw [callback_refresh_ok data data1 gp _ h]
  simp only [Option.getD_some]
  rw [callback_refresh_ok data1 data1 gp _ h2]
  simp only [graphAfter, addEdges_eq, MutableGraph.empty, MutableGraph.resize, hnum]
  by_cases h0 : data.getNumBasicBlocks = 0 <;> simp [h0]

theorem mapFind_mapInsert_some (m : BBMap) (k : BlockRef) (w : Int) (b : BlockRef) (v : Int)
    (h : mapFind (mapInsert m k w) b = some v) :
    mapFind m b = some v ∨ (b = k ∧ v = w) := by
  unfold mapInsert at h
  cases hk : mapFind m k with
  | some u =>
    rw [hk] at h
    exact Or.inl h
  | none =>
    rw [hk] at h
    simp only [mapFind_append] at h
    cases hb : mapFind m b with
    | some u =>
      rw [hb] at h
      exact Or.inl (by simpa using h)
    | none =>
      rw [hb] at h
      by_cases hkb : k = b
      · subst hkb
        simp [mapFind] at h
        exact Or.inr ⟨rfl, h.symm⟩
      · simp [mapFind, hkb] at h

/-- Every value the constructor's loop puts into the map is the position of a
block it appended, converted to `int`. -/
theorem ctor_fold_values (bs : List BlockRef) (self : IDALLVMFunction) (b : BlockRef) (v : Int)
    (h : mapFind (bs.foldl ctorStep self).bbToIndex b = some v) :
    mapFind self.bbToIndex b = some v
      ∨ ∃ k : Nat, k < self.basicBlocks.length + bs.length ∧ v = toInt k := by
  induction bs generalizing self with
  | nil => exact Or.inl h
  | cons c bs ih =>
    rw [List.foldl_cons] at h
    have hlen : (ctorStep self c).basicBlocks.length = self.basicBlocks.length + 1 := by
      simp [ctorStep]
    rcases ih (ctorStep self c) h with h1 | ⟨k, hk, hv⟩
    · have hstep : (ctorStep self c).bbToIndex
          = mapInsert self.bbToIndex c (toInt self.basicBlocks.length) := rfl
      rw [hstep] at h1
      rcases mapFind_mapInsert_some _ _ _ _ _ h1 with h2 | ⟨-, hv⟩
      · exact Or.inl h2
      · exact Or.inr ⟨self.basicBlocks.length, by simp, hv⟩
    · refine Or.inr ⟨k, ?_, hv⟩
      rw [hlen] at hk
      simp only [List.length_cons]
      omega

/-- The indices of a constructed object lie in `[0, N)` when `N` is an `int`. -/
theorem ctor_index_range (f : Function) (hN : f.blocks.length < 2 ^ 31) (b : BlockRef)
    (hb : b ∈ f.blocks) :
    0 ≤ (IDALLVMFunction.IDALLVMFunction f).getBasicBlockIndex b
      ∧ (IDALLVMFunction.IDALLVMFunction f).getBasicBlockIndex b
          < (IDALLVMFunction.IDALLVMFunction f).getNumBasicBlocks := by
  obtain ⟨hbbs, -, -, -, hmem⟩ := ctor_frame f
  obtain ⟨v, hv⟩ := Option.ne_none_iff_exists'.mp ((hmem b).mpr hb)
  have hvals := ctor_fold_values f.blocks
    { function := f, nodeText := [], bbToIndex := [], edges := [], basicBlocks := [] } b v hv
  have hnum : (IDALLVMFunction.IDALLVMFunction f).getNumBasicBlocks = (f.blocks.length : Int) := by
    simp only [IDALLVMFunction.getNumBasicBlocks, hbbs]
    exact toInt_of_lt hN
  rcases hvals with h0 | ⟨k, hk, hkv⟩
  · simp [mapFind] at h0
  · simp only [List.length_nil, Nat.zero_add] at hk
    rw [toInt_of_lt (by omega)] at hkv
    simp only [IDALLVMFunction.getBasicBlockIndex, hv, hnum, hkv]
    omega

theorem set_append_length {α : Type} (l r : List α) (a v : α) :
    (l ++ a :: r).set l.length v = l ++ v :: r := by
  induction l with
  | nil => rfl
  | cons x l ih => simp [ih]

theorem getD_append_length {α : Type} (l r : List α) (a d : α) :
    (l ++ a :: r).getD l.length d = a := by
  induction l with
  | nil => rfl
  | cons x l ih => simpa using ih

/-- The state of the text loop after `k` rounds. -/
theorem textLoop_inv (self : IDALLVMFunction) (k : Nat) (hk : k ≤ self.basicBlocks.length) :
    ((List.range k).foldl textStep
        { self with nodeText := List.replicate self.basicBlocks.length "" }).function
        = self.function
      ∧ ((List.range k).foldl textStep
        { self with nodeText := List.replicate self.basicBlocks.length "" }).basicBlocks
        = self.basicBlocks
      ∧ ((List.range k).foldl textStep
        { self with nodeText := List.replicate self.basicBlocks.length "" }).bbToIndex
        = self.bbToIndex
      ∧ ((List.range k).foldl textStep
        { self with nodeText := List.replicate self.basicBlocks.length "" }).edges
        = self.edges
      ∧ ((List.range k).foldl textStep
        { self with nodeText := List.replicate self.basicBlocks.length "" }).nodeText
        = (self.basicBlocks.take k).map self.function.print
            ++ List.replicate (self.basicBlocks.length - k) "" := by
  induction k with
  | zero => simp
  | succ k ih =>
    obtain ⟨h1, h2, h3, h4, h5⟩ := ih (by omega)
    rw [List.range_succ, List.foldl_append, List.foldl_cons, List.foldl_nil]
    refine ⟨h1, h2, h3, h4, ?_⟩
    have hlt : k < self.basicBlocks.length := by omega
    simp only [textStep, h1, h2, h5]
    have hrep : List.replicate (self.basicBlocks.length - k) ""
        = "" :: List.replicate (self.basicBlocks.length - (k + 1)) "" := by
      have : self.basicBlocks.length - k = (self.basicBlocks.length - (k + 1)) + 1 := by omega
      rw [this, List.replicate_succ]
    have hlen : (List.map self.function.print (List.take k self.basicBlocks)).length = k := by
      simp
      omega
    have htake : List.take (k + 1) self.basicBlocks
        = List.take k self.basicBlocks ++ [self.basicBlocks.getD k 0] := by
      rw [List.take_succ]
      simp [List.getD, List.getElem?_eq_getElem hlt]
    rw [hrep, htake]
    have hset := set_append_length (List.map self.function.print (List.take k self.basicBlocks))
      (List.replicate (self.basicBlocks.length - (k + 1)) "") ""
    have hget := getD_append_length (List.map self.function.print (List.take k self.basicBlocks))
      (List.replicate (self.basicBlocks.length - (k + 1)) "") "" ""
    rw [hlen] at hset hget
    rw [hget, hset]
    simp

/-- One call of `generateBasicBlockText`: the cache becomes the prints of the
blocks, in block order, and nothing else changes. -/
theorem generateBasicBlockText_spec (self : IDALLVMFunction) :
    self.generateBasicBlockText
      = { self with nodeText := self.basicBlocks.map self.function.print } := by
  obtain ⟨h1, h2, h3, h4, h5⟩ := textLoop_inv self self.basicBlocks.length (le_refl _)
  have h5b : self.generateBasicBlockText.nodeText
      = self.basicBlocks.map self.function.print := by
    simpa [IDALLVMFunction.generateBasicBlockText] using h5
  have e : ∀ a b : IDALLVMFunction, a.function = b.function → a.nodeText = b.nodeText →
      a.bbToIndex = b.bbToIndex → a.edges = b.edges → a.basicBlocks = b.basicBlocks →
      a = b := by
    intro a b q1 q2 q3 q4 q5
    cases a
    cases b
    simp_all
  exact e _ _ h1 h5b h3 h4 h2

/-- Any positive number of calls of `generateBasicBlockText` gives what one call gives. -/
theorem generateBasicBlockText_iterate (self : IDALLVMFunction) (n : Nat) (hn : 1 ≤ n) :
    Nat.iterate IDALLVMFunction.generateBasicBlockText n self
      = { self with nodeText := self.basicBlocks.map self.function.print } := by
  induction n with
  | zero => omega
  | succ n ih =>
    rw [Function.iterate_succ_apply']
    cases n with
    | zero => exact generateBasicBlockText_spec self
    | succ m =>
      rw [ih (by omega), generateBasicBlockText_spec]

theorem toInt_le (n : Nat) : toInt n ≤ (n : Int) := by
  unfold toInt
  have h := Nat.mod_le n (2 ^ 32)
  split <;> omega

theorem toInt_lt_pow (n : Nat) : toInt n < 2 ^ 31 := by
  unfold toInt
  have h := Nat.mod_lt n (show 0 < 2 ^ 32 by norm_num)
  split <;> omega

/-- Reading the text of a valid index after generation. -/
theorem getBasicBlockText_generated (self : IDALLVMFunction) (idx : Int)
    (h0 : 0 ≤ idx) (h1 : idx < self.getNumBasicBlocks) :
    ({ self with nodeText := self.basicBlocks.map self.function.print } :
        IDALLVMFunction).getBasicBlockText idx
      = .ok (self.function.print (self.basicBlocks.getD idx.toNat 0)) := by
  have hle := toInt_le self.basicBlocks.length
  have hlt := toInt_lt_pow self.basicBlocks.length
  unfold IDALLVMFunction.getNumBasicBlocks at h1
  have hpos : idx.toNat < self.basicBlocks.length := by omega
  simp only [IDALLVMFunction.getBasicBlockText]
  rw [toSizeT_of_nonneg h0 (by omega)]
  simp [vectorAt, List.getD, List.getElem?_eq_getElem hpos]

/-- Reading the text of an index that is no position of the cache. -/
theorem getBasicBlockText_outside (self : IDALLVMFunction) (idx : Int)
    (h : self.nodeText.length ≤ toSizeT idx) :
    self.getBasicBlockText idx = .error .outOfRange := by
  simp only [IDALLVMFunction.getBasicBlockText, vectorAt]
  rw [List.get?_eq_none.mpr h]

/-- The first call of `getEdges` on a freshly constructed object of a
well-formed function. -/
theorem getEdges_fresh (f : Function)
    (hwf : ∀ b ∈ f.blocks, ∀ s ∈ f.succs b, s ∈ f.blocks) :
    (IDALLVMFunction.IDALLVMFunction f).getEdges
      = .ok { IDALLVMFunction.IDALLVMFunction f with
              edges := f.blocks.enum.flatMap (fun p =>
                (f.succs p.2).map (fun s =>
                  ((p.1 : Int), (IDALLVMFunction.IDALLVMFunction f).getBasicBlockIndex s))) } := by
  obtain ⟨hbbs, hedges, -, hfun, hmem⟩ := ctor_frame f
  have hloop := blockLoop_ok f.blocks [] (IDALLVMFunction.IDALLVMFunction f)
    (by simpa using hbbs)
    (by
      intro b hb s hs
      rw [hfun] at hs
      exact (hmem s).mpr (hwf b hb s hs))
  unfold IDALLVMFunction.getEdges
  rw [if_pos (by simp [hedges]), hbbs, List.range_eq_range']
  simpa [hedges, hfun, List.enum] using hloop

/-! ## The block index map -/

/-- C1: for a function whose blocks `b_0 .. b_{N-1}` are pairwise distinct (and
whose count `N` is a value of `int`), the constructed object reports `N` blocks,
maps `b_i` to `i`, maps every reference that is not a block of the function
to -1, and so maps the blocks one-to-one onto the indices `0 .. N-1`. -/
theorem C1_block_index_bijection (f : Function) (hd : f.blocks.Nodup)
    (hN : f.blocks.length < 2 ^ 31) :
    (IDALLVMFunction.IDALLVMFunction f).getNumBasicBlocks = (f.blocks.length : Int)
      ∧ (∀ (i : Nat) (h : i < f.blocks.length),
          (IDALLVMFunction.IDALLVMFunction f).getBasicBlockIndex (f.blocks.get ⟨i, h⟩)
            = (i : Int))
      ∧ (∀ b : BlockRef, b ∉ f.blocks →
          (IDALLVMFunction.IDALLVMFunction f).getBasicBlockIndex b = -1)
      ∧ (∀ b ∈ f.blocks, ∀ c ∈ f.blocks,
          (IDALLVMFunction.IDALLVMFunction f).getBasicBlockIndex b
            = (IDALLVMFunction.IDALLVMFunction f).getBasicBlockIndex c → b = c)
      ∧ (∀ j : Int, 0 ≤ j → j < (f.blocks.length : Int) →
          ∃ b ∈ f.blocks, (IDALLVMFunction.IDALLVMFunction f).getBasicBlockIndex b = j) := by
  obtain ⟨hmap, hbbs, -, -, -⟩ := ctor_spec f hd
  have hidx : ∀ (i : Nat) (h : i < f.blocks.length),
      (IDALLVMFunction.IDALLVMFunction f).getBasicBlockIndex (f.blocks.get ⟨i, h⟩)
        = (i : Int) := by
    intro i h
    have hfind := mapFind_indexEntries f.blocks 0 i hd h
    rw [Nat.zero_add, toInt_of_lt (by omega)] at hfind
    simp only [IDALLVMFunction.getBasicBlockIndex, hmap, hfind]
  refine ⟨?_, hidx, ?_, ?_, ?_⟩
  · simp only [IDALLVMFunction.getNumBasicBlocks, hbbs]
    exact toInt_of_lt hN
  · intro b hb
    have hnone : mapFind (indexEntries 0 f.blocks) b = none := by
      rw [mapFind_eq_none_iff, indexEntries_keys]
      exact hb
    simp only [IDALLVMFunction.getBasicBlockIndex, hmap, hnone]
  · intro b hb c hc hbc
    obtain ⟨⟨i, hi⟩, rfl⟩ := List.mem_iff_get.mp hb
    obtain ⟨⟨j, hj⟩, rfl⟩ := List.mem_iff_get.mp hc
    rw [hidx i hi, hidx j hj] at hbc
    have hij : i = j := by exact_mod_cast hbc
    subst hij
    rfl
  · intro j hj0 hjN
    have hlt : j.toNat < f.blocks.length := by omega
    refine ⟨f.blocks.get ⟨j.toNat, hlt⟩, List.get_mem f.blocks j.toNat hlt, ?_⟩
    rw [hidx j.toNat hlt]
    omega

/-- C1 at the diamond function: three blocks, and block `B` has index 1. -/
theorem C1_block_index_bijection_witness :
    diamond.blocks.Nodup ∧ diamond.blocks.length < 2 ^ 31
      ∧ (IDALLVMFunction.IDALLVMFunction diamond).getNumBasicBlocks = 3
      ∧ (IDALLVMFunction.IDALLVMFunction diamond).getBasicBlockIndex 20 = 1 :=
  ⟨by decide, by decide,
    (C1_block_index_bijection diamond (by decide) (by decide)).1,
    (C1_block_index_bijection diamond (by decide) (by decide)).2.1 1 (by decide)⟩

/-! ## The edge list -/

/-- C2: for a well-formed function (every successor of every block is a block
of the function) `getEdges` returns, block by block in index order, the pairs
`(i, getBasicBlockIndex(s))` for the successors `s` of block `i` in successor
order, and nothing else; the rest of the object is untouched. For the diamond
`A -> B -> C` with `A -> C` the result is `(0,1), (0,2), (1,2)` and the block
count is 3. -/
theorem C2_edges_are_mapped_successors (f : Function)
    (hwf : ∀ b ∈ f.blocks, ∀ s ∈ f.succs b, s ∈ f.blocks) :
    ((IDALLVMFunction.IDALLVMFunction f).getEdges
        = .ok { IDALLVMFunction.IDALLVMFunction f with
                edges := f.blocks.enum.flatMap (fun p =>
                  (f.succs p.2).map (fun s =>
                    ((p.1 : Int),
                      (IDALLVMFunction.IDALLVMFunction f).getBasicBlockIndex s))) })
      ∧ returnedEdges (IDALLVMFunction.IDALLVMFunction diamond).getEdges
          = some [(0, 1), (0, 2), (1, 2)]
      ∧ (IDALLVMFunction.IDALLVMFunction diamond).getNumBasicBlocks = 3 :=
  ⟨getEdges_fresh f hwf, by decide, by decide⟩

/-- C2 at a two-block loop `A -> B -> A`: the edges are `(0,1), (1,0)`. -/
theorem C2_edges_are_mapped_successors_witness :
    (∀ b ∈ twoLoop.blocks, ∀ s ∈ twoLoop.succs b, s ∈ twoLoop.blocks)
      ∧ returnedEdges (IDALLVMFunction.IDALLVMFunction twoLoop).getEdges
          = some (twoLoop.blocks.enum.flatMap (fun p =>
              (twoLoop.succs p.2).map (fun s =>
                ((p.1 : Int),
                  (IDALLVMFunction.IDALLVMFunction twoLoop).getBasicBlockIndex s)))) :=
  ⟨by decide, by
    rw [(C2_edges_are_mapped_successors twoLoop (by decide)).1]
    rfl⟩

/-! ## Two refresh events -/

/-- C3, as claimed, fails: two refresh events on the diamond function, from an
empty host graph, leave 6 edges in the graph, while `getEdges()` has 3. -/
theorem C3_two_refreshes_double_the_edges :
    (graphAfter (refreshTwice (IDALLVMFunction.IDALLVMFunction diamond) "g"
        { nodes := 0, edges := [] })).map MutableGraph.edgeCount = some 6
      ∧ (returnedEdges (IDALLVMFunction.IDALLVMFunction diamond).getEdges).map List.length
          = some 3
      ∧ (graphAfter (refreshTwice (IDALLVMFunction.IDALLVMFunction diamond) "g"
          { nodes := 0, edges := [] })).map MutableGraph.edgeCount
        ≠ (returnedEdges (IDALLVMFunction.IDALLVMFunction diamond).getEdges).map
            List.length := by
  decide

/-- C3, amended: for a well-formed function, two refresh events on the same
session, from an empty host graph, leave a graph of `getNumBasicBlocks()` nodes
whose edge list is `getEdges()` followed by `getEdges()` once more: the callback
adds every edge at each refresh, so the edge count is twice the length of
`getEdges()`. -/
theorem C3_two_refreshes_add_every_edge_twice (f : Function) (gp : Ptr)
    (hwf : ∀ b ∈ f.blocks, ∀ s ∈ f.succs b, s ∈ f.blocks) :
    ∃ self1 : IDALLVMFunction,
      (IDALLVMFunction.IDALLVMFunction f).getEdges = .ok self1
        ∧ graphAfter (refreshTwice (IDALLVMFunction.IDALLVMFunction f) gp
            { nodes := 0, edges := [] })
          = some { nodes := (IDALLVMFunction.IDALLVMFunction f).getNumBasicBlocks
                   edges := self1.edges ++ self1.edges }
        ∧ (graphAfter (refreshTwice (IDALLVMFunction.IDALLVMFunction f) gp
            { nodes := 0, edges := [] })).map MutableGraph.edgeCount
          = some (2 * self1.edges.length) := by
  have hok := getEdges_fresh f hwf
  have htwice := refreshTwice_ok _ _ gp hok
  refine ⟨_, hok, htwice, ?_⟩
  rw [htwice]
  simp only [Option.map_some', MutableGraph.edgeCount, List.length_append]
  congr 1
  omega

/-- C3, amended, at the two-block loop: two refreshes leave 4 edges. -/
theorem C3_two_refreshes_add_every_edge_twice_witness :
    (∀ b ∈ twoLoop.blocks, ∀ s ∈ twoLoop.succs b, s ∈ twoLoop.blocks)
      ∧ ∃ self1 : IDALLVMFunction,
          (IDALLVMFunction.IDALLVMFunction twoLoop).getEdges = .ok self1
            ∧ graphAfter (refreshTwice (IDALLVMFunction.IDALLVMFunction twoLoop) "g"
                { nodes := 0, edges := [] })
              = some { nodes := 2, edges := [(0, 1), (1, 0), (0, 1), (1, 0)] } := by
  refine ⟨by decide, ?_⟩
  obtain ⟨self1, h1, -, -⟩ :=
    C3_two_refreshes_add_every_edge_twice twoLoop "g" (by decide)
  exact ⟨self1, h1, by decide⟩

/-! ## The text event and the hint event -/

/-- C4, as claimed, fails: on the diamond function the text event ends with
`std::out_of_range` when the text was never generated (node 0), and after the
text was generated for the nodes 3 and -1, which are no block indices. -/
theorem C4_text_event_raises_out_of_range :
    raisedOutOfRange (callback (IDALLVMFunction.IDALLVMFunction diamond)
        (.grcode_user_text 0 false)) = true
      ∧ raisedOutOfRange
          (callback (IDALLVMFunction.IDALLVMFunction diamond).generateBasicBlockText
            (.grcode_user_text 3 false)) = true
      ∧ raisedOutOfRange
          (callback (IDALLVMFunction.IDALLVMFunction diamond).generateBasicBlockText
            (.grcode_user_text (-1) true)) = true := by
  decide

/-- C4, amended: the text event returns exactly when `getBasicBlockText`
does. After `generateBasicBlockText()` and for a node in
`[0, getNumBasicBlocks())` it returns 1, stores the print of that block and
sets the background colour if the host asked for it; when the text was never
generated (empty cache), or for a node outside that range, the out-of-range
failure of `getBasicBlockText` leaves the callback and no text is stored. -/
theorem C4_text_event_returns_or_raises (self : IDALLVMFunction) (node : Int)
    (bgcolorGiven : Bool) (hnode : IsInt node) (hN : self.basicBlocks.length < 2 ^ 31) :
    ((0 ≤ node ∧ node < self.getNumBasicBlocks) →
        callback self.generateBasicBlockText (.grcode_user_text node bgcolorGiven)
          = .ok { data := self.generateBasicBlockText, result := 1, log := [], graph := none
                  text := some (self.function.print (self.basicBlocks.getD node.toNat 0))
                  bgcolorSet := bgcolorGiven, hint := none })
      ∧ (self.nodeText = [] →
          callback self (.grcode_user_text node bgcolorGiven) = .error .outOfRange)
      ∧ ((node < 0 ∨ self.getNumBasicBlocks ≤ node) →
          callback self.generateBasicBlockText (.grcode_user_text node bgcolorGiven)
            = .error .outOfRange) := by
  have hnum : self.getNumBasicBlocks = (self.basicBlocks.length : Int) := toInt_of_lt hN
  refine ⟨?_, ?_, ?_⟩
  · rintro ⟨h0, h1⟩
    have ht := getBasicBlockText_generated self node h0 h1
    rw [← generateBasicBlockText_spec] at ht
    simp [callback, ht]
  · intro hempty
    have ht := getBasicBlockText_outside self node (by simp [hempty])
    simp [callback, ht]
  · intro hout
    have hlen : self.generateBasicBlockText.nodeText.length = self.basicBlocks.length := by
      rw [generateBasicBlockText_spec]
      simp
    have hpos : self.generateBasicBlockText.nodeText.length ≤ toSizeT node := by
      rw [hlen]
      rcases hout with hneg | hge
      · have := toSizeT_of_neg hneg hnode.1
        omega
      · rw [hnum] at hge
        rw [toSizeT_of_nonneg (by omega) (by have := hnode.2; omega)]
        omega
    have ht := getBasicBlockText_outside self.generateBasicBlockText node hpos
    simp [callback, ht]

/-- C4, amended, at the diamond function: node 1 after generation gives the
print of block `B`, and node 3 raises. -/
theorem C4_text_event_returns_or_raises_witness :
    IsInt 1 ∧ IsInt 3
      ∧ (IDALLVMFunction.IDALLVMFunction diamond).basicBlocks.length < 2 ^ 31
      ∧ callback (IDALLVMFunction.IDALLVMFunction diamond).generateBasicBlockText
          (.grcode_user_text 1 true)
        = .ok { data := (IDALLVMFunction.IDALLVMFunction diamond).generateBasicBlockText
                result := 1, log := [], graph := none, text := some "bb20"
                bgcolorSet := true, hint := none }
      ∧ callback (IDALLVMFunction.IDALLVMFunction diamond).generateBasicBlockText
          (.grcode_user_text 3 true) = .error .outOfRange :=
  ⟨by decide, by decide, by decide,
    (C4_text_event_returns_or_raises (IDALLVMFunction.IDALLVMFunction diamond) 1 true
      (by decide) (by decide)).1 (by decide),
    (C4_text_event_returns_or_raises (IDALLVMFunction.IDALLVMFunction diamond) 3 true
      (by decide) (by decide)).2.2 (by decide)⟩

/-- C5: what the code does at a hint event that identifies neither a node nor
an edge (`mousenode = -1`, `mouseedge_src = -1`): no hint string is stored, yet
the returned code is 1, "use proposed hint", and not 0. -/
theorem C5_hint_without_target_returns_one (self : IDALLVMFunction) (mouseedge_dst : Int) :
    callback self (.grcode_user_hint (-1) (-1) mouseedge_dst)
      = .ok { data := self, result := 1, log := [], graph := none, text := none
              bgcolorSet := false, hint := none } := by
  simp [callback, hintBuf]

/-! ## Idempotence of the edge list and of the text cache -/

/-- C6: `getEdges` is idempotent. For a well-formed function the first call on
the constructed object returns, and a second call returns the very same object,
hence the same edge list in content and order with nothing appended; and for any
object at all, in any state and with or without edges, a call that returns is
followed by a call that returns the same object. -/
theorem C6_getEdges_idempotent (f : Function)
    (hwf : ∀ b ∈ f.blocks, ∀ s ∈ f.succs b, s ∈ f.blocks) :
    (∃ self1 : IDALLVMFunction,
        (IDALLVMFunction.IDALLVMFunction f).getEdges = .ok self1
          ∧ self1.getEdges = .ok self1
          ∧ returnedEdges self1.getEdges
              = returnedEdges (IDALLVMFunction.IDALLVMFunction f).getEdges)
      ∧ ∀ self self1 : IDALLVMFunction, self.getEdges = .ok self1 →
          self1.getEdges = .ok self1 := by
  have hok := getEdges_fresh f hwf
  have hagain := (getEdges_returns _ _ hok).2.2.2.2
  refine ⟨⟨_, hok, hagain, ?_⟩, ?_⟩
  · rw [hagain, hok]
  · intro self self1 h
    exact (getEdges_returns self self1 h).2.2.2.2

/-- C6 at a function without edges: both calls return the empty list. -/
theorem C6_getEdges_idempotent_witness :
    (∀ b ∈ isolated.blocks, ∀ s ∈ isolated.succs b, s ∈ isolated.blocks)
      ∧ returnedEdges (IDALLVMFunction.IDALLVMFunction isolated).getEdges = some []
      ∧ ∃ self1 : IDALLVMFunction,
          (IDALLVMFunction.IDALLVMFunction isolated).getEdges = .ok self1
            ∧ self1.getEdges = .ok self1 := by
  refine ⟨by decide, by decide, ?_⟩
  obtain ⟨⟨self1, h1, h2, -⟩, -⟩ := C6_getEdges_idempotent isolated (by decide)
  exact ⟨self1, h1, h2⟩

/-- C7: after `n ≥ 1` consecutive calls of `generateBasicBlockText` on an object,
the text cache has exactly one entry per block and is the list of the prints of
the blocks, `getBasicBlockText(i)` is the print of block `i` alone for every
`0 ≤ i < getNumBasicBlocks()`, one more call changes nothing, and no other
member has changed. -/
theorem C7_generateBasicBlockText_stable (self : IDALLVMFunction) (n : Nat) (hn : 1 ≤ n) :
    (Nat.iterate IDALLVMFunction.generateBasicBlockText n self).nodeText.length
        = self.basicBlocks.length
      ∧ (Nat.iterate IDALLVMFunction.generateBasicBlockText n self).nodeText
          = self.basicBlocks.map self.function.print
      ∧ (∀ idx : Int, 0 ≤ idx →
          idx < (Nat.iterate IDALLVMFunction.generateBasicBlockText n self).getNumBasicBlocks →
          (Nat.iterate IDALLVMFunction.generateBasicBlockText n self).getBasicBlockText idx
            = .ok (self.function.print (self.basicBlocks.getD idx.toNat 0)))
      ∧ (Nat.iterate IDALLVMFunction.generateBasicBlockText n self).generateBasicBlockText
          = Nat.iterate IDALLVMFunction.generateBasicBlockText n self
      ∧ (Nat.iterate IDALLVMFunction.generateBasicBlockText n self).basicBlocks
          = self.basicBlocks
      ∧ (Nat.iterate IDALLVMFunction.generateBasicBlockText n self).function = self.function
      ∧ (Nat.iterate IDALLVMFunction.generateBasicBlockText n self).bbToIndex = self.bbToIndex
      ∧ (Nat.iterate IDALLVMFunction.generateBasicBlockText n self).edges = self.edges := by
  have hit := generateBasicBlockText_iterate self n hn
  rw [hit]
  refine ⟨by simp, rfl, ?_, ?_, rfl, rfl, rfl, rfl⟩
  · intro idx h0 h1
    exact getBasicBlockText_generated self idx h0 h1
  · rw [generateBasicBlockText_spec]

/-- C7 at the diamond function: after two calls the cache holds the three prints. -/
theorem C7_generateBasicBlockText_stable_witness :
    1 ≤ 2
      ∧ (Nat.iterate IDALLVMFunction.generateBasicBlockText 2
          (IDALLVMFunction.IDALLVMFunction diamond)).nodeText = ["bb10", "bb20", "bb30"] :=
  ⟨by decide,
    (C7_generateBasicBlockText_stable (IDALLVMFunction.IDALLVMFunction diamond) 2
      (by decide)).2.1⟩

/-- C8: `getBasicBlockText(idx)`, for an `int` `idx`, fails with
`std::out_of_range` exactly when `idx` is no position of the text cache. It
fails for every `idx` while the cache is empty, as it is in every freshly
constructed object; after generation (with an `int` number of blocks) it fails
for every `idx < 0` and every `idx ≥ getNumBasicBlocks()`, it returns for every
`0 ≤ idx < getNumBasicBlocks()`, and so it fails exactly outside that range. -/
theorem C8_getBasicBlockText_out_of_range (self : IDALLVMFunction) (idx : Int)
    (hidx : IsInt idx) (hN : self.basicBlocks.length < 2 ^ 31) :
    (self.nodeText = [] → self.getBasicBlockText idx = .error .outOfRange)
      ∧ (∀ f : Function,
          (IDALLVMFunction.IDALLVMFunction f).getBasicBlockText idx = .error .outOfRange)
      ∧ ((idx < 0 ∨ self.getNumBasicBlocks ≤ idx) →
          self.generateBasicBlockText.getBasicBlockText idx = .error .outOfRange)
      ∧ ((0 ≤ idx ∧ idx < self.getNumBasicBlocks) →
          ∃ t : String, self.generateBasicBlockText.getBasicBlockText idx = .ok t)
      ∧ (self.generateBasicBlockText.getBasicBlockText idx = .error .outOfRange
          ↔ (idx < 0 ∨ self.getNumBasicBlocks ≤ idx)) := by
  have hnum : self.getNumBasicBlocks = (self.basicBlocks.length : Int) := toInt_of_lt hN
  have hempty : ∀ s : IDALLVMFunction, s.nodeText = [] →
      s.getBasicBlockText idx = .error .outOfRange := by
    intro s hs
    exact getBasicBlockText_outside s idx (by simp [hs])
  have hfail : (idx < 0 ∨ self.getNumBasicBlocks ≤ idx) →
      self.generateBasicBlockText.getBasicBlockText idx = .error .outOfRange := by
    intro hout
    apply getBasicBlockText_outside
    have hlen : self.generateBasicBlockText.nodeText.length = self.basicBlocks.length := by
      rw [generateBasicBlockText_spec]
      simp
    rw [hlen]
    rcases hout with hneg | hge
    · have := toSizeT_of_neg hneg hidx.1
      omega
    · rw [hnum] at hge
      rw [toSizeT_of_nonneg (by omega) (by have := hidx.2; omega)]
      omega
  have hgood : (0 ≤ idx ∧ idx < self.getNumBasicBlocks) →
      ∃ t : String, self.generateBasicBlockText.getBasicBlockText idx = .ok t := by
    rintro ⟨h0, h1⟩
    refine ⟨self.function.print (self.basicBlocks.getD idx.toNat 0), ?_⟩
    rw [generateBasicBlockText_spec]
    exact getBasicBlockText_generated self idx h0 h1
  refine ⟨hempty self, ?_, hfail, hgood, ?_⟩
  · intro f
    exact hempty _ (ctor_frame f).2.2.1
  · constructor
    · intro herr
      by_contra hnot
      obtain ⟨t, ht⟩ := hgood (by omega)
      rw [ht] at herr
      cases herr
    · exact hfail

/-- C8 at the diamond function: index 3 fails after generation, index 2 returns. -/
theorem C8_getBasicBlockText_out_of_range_witness :
    IsInt 3 ∧ IsInt 2
      ∧ (IDALLVMFunction.IDALLVMFunction diamond).basicBlocks.length < 2 ^ 31
      ∧ (IDALLVMFunction.IDALLVMFunction diamond).generateBasicBlockText.getBasicBlockText 3
          = .error .outOfRange
      ∧ ∃ t : String,
          (IDALLVMFunction.IDALLVMFunction diamond).generateBasicBlockText.getBasicBlockText 2
            = .ok t :=
  ⟨by decide, by decide, by decide,
    (C8_getBasicBlockText_out_of_range (IDALLVMFunction.IDALLVMFunction diamond) 3
      (by decide) (by decide)).2.2.1 (by decide),
    (C8_getBasicBlockText_out_of_range (IDALLVMFunction.IDALLVMFunction diamond) 2
      (by decide) (by decide)).2.2.2.1 (by decide)⟩

/-! ## The refresh event -/

/-- C9: the first refresh event of a session, on an empty host graph and for a
well-formed function with an `int` number of blocks, returns the success code 1,
resizes the graph to `getNumBasicBlocks()` nodes and adds exactly the pairs of
`getEdges()`, once each and in their order; both endpoints of every added edge
lie in `[0, node count)`. -/
theorem C9_first_refresh_populates (f : Function) (gp : Ptr)
    (hwf : ∀ b ∈ f.blocks, ∀ s ∈ f.succs b, s ∈ f.blocks)
    (hN : f.blocks.length < 2 ^ 31) :
    ∃ self1 : IDALLVMFunction,
      (IDALLVMFunction.IDALLVMFunction f).getEdges = .ok self1
        ∧ callback (IDALLVMFunction.IDALLVMFunction f)
            (.grcode_user_refresh gp { nodes := 0, edges := [] })
          = .ok { data := self1, result := 1, log := [gp ++ ": refresh\n"]
                  graph := some
                    { nodes := (IDALLVMFunction.IDALLVMFunction f).getNumBasicBlocks
                      edges := self1.edges }
                  text := none, bgcolorSet := false, hint := none }
        ∧ ∀ e ∈ self1.edges,
            0 ≤ e.1 ∧ e.1 < (IDALLVMFunction.IDALLVMFunction f).getNumBasicBlocks
              ∧ 0 ≤ e.2 ∧ e.2 < (IDALLVMFunction.IDALLVMFunction f).getNumBasicBlocks := by
  have hok := getEdges_fresh f hwf
  obtain ⟨hbbs, -, -, -, -⟩ := ctor_frame f
  have hnum : (IDALLVMFunction.IDALLVMFunction f).getNumBasicBlocks = (f.blocks.length : Int) := by
    simp only [IDALLVMFunction.getNumBasicBlocks, hbbs]
    exact toInt_of_lt hN
  refine ⟨_, hok, ?_, ?_⟩
  · rw [callback_refresh_ok _ _ gp _ hok, addEdges_eq]
    simp [MutableGraph.empty, MutableGraph.resize]
  · intro e he
    simp only [List.mem_flatMap, List.mem_map] at he
    obtain ⟨p, hp, s, hs, rfl⟩ := he
    have hlt : p.1 < f.blocks.length := List.fst_lt_of_mem_enum hp
    have hmem : p.2 ∈ f.blocks := List.snd_mem_of_mem_enum hp
    have hrange := ctor_index_range f hN s (hwf p.2 hmem s hs)
    rw [hnum] at hrange ⊢
    refine ⟨?_, ?_, hrange.1, hrange.2⟩
    · exact Int.ofNat_nonneg _
    · show (p.1 : Int) < (f.blocks.length : Int)
      exact_mod_cast hlt

/-- C9 at the diamond function: the first refresh returns 1 and leaves a graph
of 3 nodes with the edges `(0,1), (0,2), (1,2)`. -/
theorem C9_first_refresh_populates_witness :
    (∀ b ∈ diamond.blocks, ∀ s ∈ diamond.succs b, s ∈ diamond.blocks)
      ∧ diamond.blocks.length < 2 ^ 31
      ∧ ∃ self1 : IDALLVMFunction,
          (IDALLVMFunction.IDALLVMFunction diamond).getEdges = .ok self1
            ∧ graphAfter (callback (IDALLVMFunction.IDALLVMFunction diamond)
                (.grcode_user_refresh "g" { nodes := 0, edges := [] }))
              = some { nodes := 3, edges := [(0, 1), (0, 2), (1, 2)] } := by
  refine ⟨by decide, by decide, ?_⟩
  obtain ⟨self1, h1, -, -⟩ := C9_first_refresh_populates diamond "g" (by decide) (by decide)
  exact ⟨self1, h1, by decide⟩

/-! ## Successors that the map does not know -/

/-- C10: if a block of the function has a successor that the block-index map
does not contain, `getEdges()` on the constructed object does not return: the
assertion fires, so no edge list is returned at all, and at the abort the map is
the one the constructor built, still without the unknown successor. The same
holds for any object whose edge cache is empty. -/
theorem C10_unknown_successor_aborts (f : Function) (b s : BlockRef)
    (hb : b ∈ f.blocks) (hs : s ∈ f.succs b)
    (hmiss : mapFind (IDALLVMFunction.IDALLVMFunction f).bbToIndex s = none) :
    (∃ st : IDALLVMFunction,
        (IDALLVMFunction.IDALLVMFunction f).getEdges = .error (.assertion st)
          ∧ st.bbToIndex = (IDALLVMFunction.IDALLVMFunction f).bbToIndex
          ∧ mapFind st.bbToIndex s = none)
      ∧ returnedEdges (IDALLVMFunction.IDALLVMFunction f).getEdges = none
      ∧ ∀ self : IDALLVMFunction, self.edges = [] →
          (∃ c ∈ self.basicBlocks, ∃ t ∈ self.function.succs c,
            mapFind self.bbToIndex t = none) →
          ∃ st : IDALLVMFunction, self.getEdges = .error (.assertion st)
            ∧ st.bbToIndex = self.bbToIndex := by
  obtain ⟨hbbs, hedges, -, hfun, -⟩ := ctor_frame f
  have hex : ∃ c ∈ (IDALLVMFunction.IDALLVMFunction f).basicBlocks,
      ∃ t ∈ (IDALLVMFunction.IDALLVMFunction f).function.succs c,
        mapFind (IDALLVMFunction.IDALLVMFunction f).bbToIndex t = none := by
    rw [hbbs, hfun]
    exact ⟨b, hb, s, hs, hmiss⟩
  obtain ⟨st, hst, hmap⟩ := getEdges_empty_fail _ hedges hex
  refine ⟨⟨st, hst, hmap, ?_⟩, ?_, ?_⟩
  · rw [hmap]
    exact hmiss
  · rw [hst]
    rfl
  · intro self he hself
    exact getEdges_empty_fail self he hself

/-- C10 at a function whose first block branches to the unknown reference 99. -/
theorem C10_unknown_successor_aborts_witness :
    (10 ∈ dangling.blocks ∧ 99 ∈ dangling.succs 10
        ∧ mapFind (IDALLVMFunction.IDALLVMFunction dangling).bbToIndex 99 = none)
      ∧ returnedEdges (IDALLVMFunction.IDALLVMFunction dangling).getEdges = none :=
  ⟨⟨by decide, by decide, by decide⟩,
    (C10_unknown_successor_aborts dangling 10 99 (by decide) (by decide) (by decide)).2.1⟩

/-! ## The events that only notify -/

/-- C11: for every event that only notifies (layout request, node size, title
and draw, current node changed, click, double click, group creating, deleting
and visibility, focus gained and lost) and for every event code the `switch`
does not list, the callback returns 0 and the object behind `userdata` is the
very object it was, so its block list, index map, edge cache and text cache are
unchanged; no text, colour, hint or graph is written. A click on the edge
`(1, 3)` prints "clicked on " and then the record "edge (1, 3)" with its line
end. -/
theorem C11_observational_events_return_zero (data : IDALLVMFunction) (ev : Event)
    (hobs : ev.observational = true) :
    (∃ log : List String,
        callback data ev
          = .ok { data := data, result := 0, log := log, graph := none, text := none
                  bgcolorSet := false, hint := none })
      ∧ (∀ o : Outcome, callback data ev = .ok o →
          o.result = 0 ∧ o.data.basicBlocks = data.basicBlocks
            ∧ o.data.bbToIndex = data.bbToIndex ∧ o.data.edges = data.edges
            ∧ o.data.nodeText = data.nodeText)
      ∧ callback data (.grcode_clicked (.git_edge 1 3))
          = .ok { data := data, result := 0, log := ["clicked on ", "edge (1, 3)" ++ "\n"]
                  graph := none, text := none, bgcolorSet := false, hint := none } := by
  have hret : ∃ log : List String,
      callback data ev
        = .ok { data := data, result := 0, log := log, graph := none, text := none
                bgcolorSet := false, hint := none } := by
    cases ev with
    | grcode_calculating_layout => exact ⟨_, rfl⟩
    | grcode_changed_current v curnode => exact ⟨_, rfl⟩
    | grcode_clicked m => exact ⟨_, rfl⟩
    | grcode_dblclicked v s => exact ⟨_, rfl⟩
    | grcode_creating_group g nodes => exact ⟨_, rfl⟩
    | grcode_deleting_group g group => exact ⟨_, rfl⟩
    | grcode_group_visibility g group expand => exact ⟨_, rfl⟩
    | grcode_gotfocus g => exact ⟨_, rfl⟩
    | grcode_lostfocus g => exact ⟨_, rfl⟩
    | grcode_user_size => exact ⟨_, rfl⟩
    | grcode_user_title => exact ⟨_, rfl⟩
    | grcode_user_draw => exact ⟨_, rfl⟩
    | unlisted code => exact ⟨_, rfl⟩
    | grcode_user_refresh gp g => simp [Event.observational] at hobs
    | grcode_user_gentext g => simp [Event.observational] at hobs
    | grcode_user_text node bgcolorGiven => simp [Event.observational] at hobs
    | grcode_user_hint a b c => simp [Event.observational] at hobs
  refine ⟨hret, ?_, ?_⟩
  · intro o ho
    obtain ⟨log, hlog⟩ := hret
    rw [hlog] at ho
    injection ho with ho
    subst ho
    exact ⟨rfl, rfl, rfl, rfl, rfl⟩
  · rfl

/-- C11 at the diamond function: an event code that the `switch` does not list
and a click on the edge `(1, 3)` both return 0, and the click is logged. -/
theorem C11_observational_events_return_zero_witness :
    (Event.unlisted 4242).observational = true
      ∧ resultAfter (callback (IDALLVMFunction.IDALLVMFunction diamond) (.unlisted 4242))
          = some 0
      ∧ callback (IDALLVMFunction.IDALLVMFunction diamond) (.grcode_clicked (.git_edge 1 3))
          = .ok { data := IDALLVMFunction.IDALLVMFunction diamond, result := 0
                  log := ["clicked on ", "edge (1, 3)\n"]
                  graph := none, text := none, bgcolorSet := false, hint := none } := by
  have h := C11_observational_events_return_zero (IDALLVMFunction.IDALLVMFunction diamond)
    (.unlisted 4242) rfl
  refine ⟨rfl, ?_, h.2.2⟩
  obtain ⟨log, hlog⟩ := h.1
  rw [hlog]
  rfl

end IdaLLVM
